import Mathlib

/-!
A shallow embedding of `spherapy/util/epoch_u.py` and a verification of its
specification claims.

Modelling conventions:

* Python `datetime` values are wall-clock microseconds since 0001-01-01T00:00:00
  (proleptic Gregorian, as Python's `datetime` uses), together with an optional
  fixed UTC offset in microseconds (`none` models a naive datetime).
* Python `float` literals parsed from decimal text are modelled exactly as
  decimal values `num * 10^exp` (structure `PyFloat`); IEEE-754 binary rounding,
  `inf`/`nan` literals and digit-grouping underscores are not modelled.
* Fallible Python operations return `Except PyErr`; the error constructors
  mirror the exception classes CPython would raise.
* Integer `/` and `%` on `ℤ` below are Euclidean division and remainder, which
  agree with Python's floor division `//` and `%` for the positive divisors used.
* The file-system surface of the TLE accessors is modelled by
  `Option (List String)`: `none` is a missing path and `some lines` is the
  result of `readlines()` on an existing file (each element keeps its
  terminator).
-/

/-- Kinds of Python exception raised by the embedded operations:
`ValueError` (failed `int`/`float` parse, bad constructor argument, `np.argmin`
on an empty array), `IndexError` (list index out of range) and `OverflowError`
(`timedelta`/`datetime` out of their documented ranges). -/
inductive PyErr where
  | valueError
  | indexError
  | overflowError
deriving DecidableEq, Repr

/-- ASCII whitespace accepted (and stripped) by Python's `int`/`float` parsers. -/
def isSpaceChar (c : Char) : Bool :=
  c.toNat = 32 || c.toNat = 9 || c.toNat = 10 || c.toNat = 13 || c.toNat = 11 || c.toNat = 12

/-- ASCII decimal digit test. -/
def isDigitChar (c : Char) : Bool :=
  48 ≤ c.toNat && c.toNat ≤ 57

/-- Numeric value of an ASCII digit. -/
def digitVal (c : Char) : ℕ := c.toNat - 48

/-- Value of a big-endian ASCII digit string. -/
def digitsToNat (ds : List Char) : ℕ := ds.foldl (fun a c => 10 * a + digitVal c) 0

/-- Leading and trailing whitespace removal (Python's `str.strip()` as applied
by `int()` / `float()` to their argument). -/
def pyStripChars (cs : List Char) : List Char :=
  ((cs.dropWhile isSpaceChar).reverse.dropWhile isSpaceChar).reverse

/-- An unsigned run of digits as an integer, rejecting the empty run. -/
def pyIntOfDigits (ds : List Char) : Except PyErr ℤ :=
  if ds ≠ [] ∧ ds.all isDigitChar then .ok (digitsToNat ds) else .error .valueError

/-- Consume an optional single leading sign, returning whether it was `-`
together with the remaining characters. -/
def signSplit : List Char → Bool × List Char
  | [] => (false, [])
  | c :: cs =>
    if c = '+' then (false, cs)
    else if c = '-' then (true, cs)
    else (false, c :: cs)

/-- Python `int(s)` on base-10 text: optional surrounding whitespace, an optional
single sign, then a non-empty digit run. -/
def pyInt (s : String) : Except PyErr ℤ :=
  let (neg, ds) := signSplit (pyStripChars s.toList)
  (pyIntOfDigits ds).map (fun v => if neg then -v else v)

/-- An exact decimal value `num * 10^exp`, the model of a parsed Python float. -/
structure PyFloat where
  num : ℤ
  exp : ℤ
deriving DecidableEq, Repr

/-- Magnitude part of a Python float literal: digits with an optional decimal
point (at least one digit overall) and an optional exponent part. -/
def pyFloatMag (cs : List Char) : Except PyErr PyFloat :=
  let mant := cs.takeWhile (fun c => c != 'e' && c != 'E')
  let expPart := cs.dropWhile (fun c => c != 'e' && c != 'E')
  let ip := mant.takeWhile (fun c => c != '.')
  let fp := (mant.dropWhile (fun c => c != '.')).drop 1
  if ip.all isDigitChar ∧ fp.all isDigitChar ∧ (ip ≠ [] ∨ fp ≠ []) then
    match expPart with
    | [] => .ok ⟨(digitsToNat (ip ++ fp) : ℤ), -(fp.length : ℤ)⟩
    | _ :: ex =>
      let (eneg, eds) := signSplit ex
      (pyIntOfDigits eds).map (fun e =>
        ⟨(digitsToNat (ip ++ fp) : ℤ), (if eneg then -e else e) - fp.length⟩)
  else .error .valueError

/-- Python `float(s)` on finite decimal literals: optional surrounding
whitespace and an optional single sign in front of the magnitude. -/
def pyFloat (s : String) : Except PyErr PyFloat :=
  let (neg, rest) := signSplit (pyStripChars s.toList)
  (pyFloatMag rest).map (fun f => if neg then ⟨-f.num, f.exp⟩ else f)

/-- Microseconds per day. -/
def usPerDay : ℤ := 86400000000

/-- Days of the proleptic Gregorian calendar strictly before January 1 of year
`y` (so `dateToMicro y 1 1 = daysBeforeYear y * usPerDay`); this is Python's
`date(y, 1, 1).toordinal() - 1`. -/
def daysBeforeYear (y : ℤ) : ℤ :=
  365 * (y - 1) + (y - 1) / 4 - (y - 1) / 100 + (y - 1) / 400

/-- Gregorian leap-year rule. -/
def isLeapYear (y : ℤ) : Bool :=
  (y % 4 == 0 && y % 100 != 0) || y % 400 == 0

/-- Lengths of the twelve months in a common year. -/
def monthDays : List ℤ := [31, 28, 31, 30, 31, 30, 31, 31, 30, 31, 30, 31]

/-- Days of year `y` strictly before the first of month `m` (1-based). -/
def daysBeforeMonth (y : ℤ) (m : ℕ) : ℤ :=
  (monthDays.take (m - 1)).sum + (if 2 < m ∧ isLeapYear y then 1 else 0)

/-- Wall-clock microseconds of midnight on the given calendar date. -/
def dateToMicro (y : ℤ) (m d : ℕ) : ℤ :=
  (daysBeforeYear y + daysBeforeMonth y m + ((d : ℤ) - 1)) * usPerDay

/-- An embedded Python datetime: wall-clock microseconds since
0001-01-01T00:00:00 plus an optional fixed UTC offset in microseconds
(`none` models a naive datetime, `some 0` models `dt.timezone.utc`). -/
structure Datetime where
  micro : ℤ
  tz : Option ℤ
deriving DecidableEq, Repr

/-- The last representable instant, 9999-12-31T23:59:59.999999, in microseconds
(Python's `datetime.max`; `datetime.min` is microsecond 0). -/
def dtMaxMicro : ℤ := 3652059 * usPerDay - 1

/-- The wall-clock microsecond count of a representable Python datetime. -/
def inDtRange (m : ℤ) : Prop := 0 ≤ m ∧ m ≤ dtMaxMicro

instance (m : ℤ) : Decidable (inDtRange m) :=
  inferInstanceAs (Decidable (0 ≤ m ∧ m ≤ dtMaxMicro))

/-- Constructor `dt.datetime(year, 1, 1, tzinfo=dt.timezone.utc)`, range-checked
as Python's constructor is. -/
def mkJan1UTC (year : ℤ) : Except PyErr Datetime :=
  if 1 ≤ year ∧ year ≤ 9999 then .ok ⟨dateToMicro year 1 1, some 0⟩
  else .error .valueError

/-- Value of `timedelta.min` in microseconds (-999999999 days). -/
def tdMinMicro : ℤ := -999999999 * usPerDay

/-- Value of `timedelta.max` in microseconds (999999999 days 23:59:59.999999). -/
def tdMaxMicro : ℤ := 1000000000 * usPerDay - 1

/-- Round `a / b` (for `b > 0`) to the nearest integer, ties to even — the
rounding Python's `timedelta` applies to fractional microseconds. -/
def roundHalfEvenDiv (a b : ℤ) : ℤ :=
  let q := a / b
  let r := a % b
  if 2 * r < b then q
  else if b < 2 * r then q + 1
  else if q % 2 == 0 then q else q + 1

/-- The exact value `f * usPerDay` rounded half-even to integer microseconds. -/
def PyFloat.microDays (f : PyFloat) : ℤ :=
  if 0 ≤ f.exp then f.num * usPerDay * 10 ^ f.exp.toNat
  else roundHalfEvenDiv (f.num * usPerDay) (10 ^ (-f.exp).toNat)

/-- Python `dt.timedelta(days=f)` for a float argument: microsecond rounding followed
by Python's range check on the normalized day count. -/
def tdOfDays (f : PyFloat) : Except PyErr ℤ :=
  if tdMinMicro ≤ f.microDays ∧ f.microDays ≤ tdMaxMicro then .ok f.microDays
  else .error .overflowError

/-- datetime + timedelta: acts on the wall clock, keeps `tzinfo`, and
range-checks the result as Python does. -/
def dtAddMicro (d : Datetime) (t : ℤ) : Except PyErr Datetime :=
  if inDtRange (d.micro + t) then .ok ⟨d.micro + t, d.tz⟩ else .error .overflowError

/-- The century pivot applied to the 2-digit year field (`year < 50` selects the
2000s, otherwise the 1900s). -/
def pivotYear (y : ℤ) : ℤ := if y < 50 then y + 2000 else y + 1900

/-- Python slice `epoch_str[:2]`. -/
def yearSlice (s : String) : String := String.mk (s.toList.take 2)

/-- Python slice `epoch_str[2:]`. -/
def daySlice (s : String) : String := String.mk (s.toList.drop 2)

/-- The function `epoch2datetime`: parse the first two characters as the 2-digit year, apply
the century pivot, parse the rest as a fractional day of year, and return
`datetime(year, 1, 1, tzinfo=utc) + timedelta(days=f) - timedelta(days=1)`
(the final subtraction is the exact one-day timedelta `usPerDay`). -/
def epoch2datetime (epoch_str : String) : Except PyErr Datetime := do
  let y ← pyInt (yearSlice epoch_str)
  let f ← pyFloat (daySlice epoch_str)
  let base ← mkJan1UTC (pivotYear y)
  let t ← tdOfDays f
  let mid ← dtAddMicro base t
  dtAddMicro mid (-usPerDay)

/-- Difference of two Python datetimes sharing timezone awareness, in
microseconds: aware datetimes subtract after removing their UTC offsets
(equal offsets cancel), naive datetimes subtract wall clocks directly. -/
def dtSubMicro (a b : Datetime) : ℤ :=
  (a.micro - a.tz.getD 0) - (b.micro - b.tz.getD 0)

/-- The function `datetime2sgp4epoch`: it forms
`delta = date - datetime(1949,12,31,tzinfo=date.tzinfo)`
and then `delta.days + delta.seconds / 86400` (timedelta normalization keeps
`0 ≤ seconds < 86400`, discarding sub-second microseconds). -/
def datetime2sgp4epoch (date : Datetime) : ℚ :=
  let sgp4start : Datetime := ⟨dateToMicro 1949 12 31, date.tz⟩
  let delta := dtSubMicro date sgp4start
  ((delta / usPerDay : ℤ) : ℚ) + (((delta % usPerDay) / 1000000 : ℤ) : ℚ) / 86400

/-- Minimum of a list of rationals (0 on the empty list, never used there). -/
def minListQ : List ℚ → ℚ
  | [] => 0
  | [x] => x
  | x :: y :: ys => min x (minListQ (y :: ys))

/-- Index of the first occurrence of the minimum of a list (`np.argmin`'s
tie-breaking). -/
def argminFirst : List ℚ → ℕ
  | [] => 0
  | [_] => 0
  | x :: y :: ys => if x ≤ minListQ (y :: ys) then 0 else argminFirst (y :: ys) + 1

/-- The step `np.argmin(np.abs(source - t))`: `ValueError` on an empty array, otherwise
the first index attaining the minimal absolute difference. -/
def npArgminAbs (t : ℚ) (src : List ℚ) : Except PyErr ℕ :=
  if src.isEmpty then .error .valueError
  else .ok (argminFirst (src.map (fun x => |x - t|)))

/-- The function `findClosestDatetimeIndices` on numeric timestamps: for each test value the
index of the closest source value.  (The spec places the vectorized
datetime→timestamp conversion outside this module's scope, so both arrays are
modelled directly as timestamp sequences.) -/
def findClosestDatetimeIndices (test_arr source_arr : List ℚ) : Except PyErr (List ℕ) :=
  test_arr.mapM (fun t => npArgminAbs t source_arr)

/-- Python list indexing `l[i]`: negative indices count from the end,
out-of-range indices raise `IndexError`. -/
def pyListGet (l : List String) (i : ℤ) : Except PyErr String :=
  let j := if i < 0 then i + l.length else i
  if 0 ≤ j ∧ j < (l.length : ℤ) then .ok (l.getD j.toNat "") else .error .indexError

/-- The structure returned by the external TLE line-field splitter: the ordered
parsed tokens and the raw line text (terminator included). -/
structure SplitLine where
  fields : List String
  line_str : String
deriving DecidableEq, Repr

/-- Whitespace tokenizer (worker): accumulates the current token reversed. -/
def splitWSAux : List Char → List Char → List String
  | [], acc => if acc.isEmpty then [] else [String.mk acc.reverse]
  | c :: cs, acc =>
    if isSpaceChar c then
      if acc.isEmpty then splitWSAux cs [] else String.mk acc.reverse :: splitWSAux cs []
    else splitWSAux cs (c :: acc)

/-- Whitespace-separated tokens of a character list. -/
def splitWS (cs : List Char) : List String := splitWSAux cs []

/-- Modelled from the spec: the external line-field splitter
`elements_u.split3LELineIntoFields` is not under `src/`; per the spec it
returns a structure exposing `fields` (the ordered parsed tokens of the line,
with the epoch token at position 3 of a TLE line-1) and `line_str` (the
original line text including its terminator, suitable for verbatim
concatenation).  Tokens are modelled as the whitespace-separated words of the
line. -/
def split3LELineIntoFields (line : String) : SplitLine :=
  ⟨splitWS line.toList, line⟩

/-- A dynamically-typed Python value, used for the heterogeneous results of
`getStoredTLEByIdx` (raw strings or `{0: ..., 1: ..., 2: ...}` dicts). -/
inductive PyVal where
  | pstr (s : String)
  | pint (n : ℤ)
  | plist (l : List PyVal)
  | pdict (entries : List (PyVal × PyVal))

/-- The splitter result as the Python dict `{'fields': [...], 'line_str': ...}`. -/
def SplitLine.toPyVal (sl : SplitLine) : PyVal :=
  .pdict [(.pstr "fields", .plist (sl.fields.map .pstr)),
          (.pstr "line_str", .pstr sl.line_str)]

/-- Body of `getStoredEpochs` once the file exists: epoch field (position 3) of
file line 1 and of the second-to-last file line, each converted to a datetime,
in file order. -/
def getStoredEpochsBody (lines : List String) : Except PyErr (Datetime × Datetime) := do
  let line1 ← pyListGet lines 1
  let linem2 ← pyListGet lines (-2)
  let first_tle_line_1 := split3LELineIntoFields line1
  let last_tle_line_1 := split3LELineIntoFields linem2
  let e1 ← pyListGet first_tle_line_1.fields 3
  let first_epoch_dt ← epoch2datetime e1
  let e2 ← pyListGet last_tle_line_1.fields 3
  let last_epoch_dt ← epoch2datetime e2
  pure (first_epoch_dt, last_epoch_dt)

/-- The function `getStoredEpochs`: the sentinel `None` when the path does not exist, otherwise the
(first, last) epoch pair (errors from parsing/indexing propagate). -/
def getStoredEpochs (tle_path : Option (List String)) :
    Except PyErr (Option (Datetime × Datetime)) :=
  match tle_path with
  | none => .ok none
  | some lines => (getStoredEpochsBody lines).map some

/-- Body of `getAllStoredEpochs` once the file exists: every line-1 (file
indices 1, 4, 7, … — `range(1, len(lines), 3)`) parsed to a datetime. -/
def getAllStoredEpochsBody (lines : List String) : Except PyErr (List Datetime) :=
  (List.range' 1 ((lines.length + 1) / 3) 3).mapM (fun ii => do
    let line ← pyListGet lines (ii : ℤ)
    let tle_line := split3LELineIntoFields line
    let e ← pyListGet tle_line.fields 3
    epoch2datetime e)

/-- The function `getAllStoredEpochs`: the sentinel `None` when the path does not exist, otherwise all
stored epochs in file order. -/
def getAllStoredEpochs (tle_path : Option (List String)) :
    Except PyErr (Option (List Datetime)) :=
  match tle_path with
  | none => .ok none
  | some lines => (getAllStoredEpochsBody lines).map some

/-- Body of `getStoredTLEByIdx` once the file exists and the index argument is
normalized to a list: for each record index the three backing lines are read
and split; the result per record is either the verbatim concatenation of the
three raw line texts or the dict `{0: split0, 1: split1, 2: split2}`. -/
def getStoredTLEByIdxBody (lines : List String) (idxs : List ℤ) (string_only : Bool) :
    Except PyErr (List PyVal) :=
  idxs.mapM (fun idx => do
    let l0 ← pyListGet lines (idx * 3 + 0)
    let tle_line_0 := split3LELineIntoFields l0
    let l1 ← pyListGet lines (idx * 3 + 1)
    let tle_line_1 := split3LELineIntoFields l1
    let l2 ← pyListGet lines (idx * 3 + 2)
    let tle_line_2 := split3LELineIntoFields l2
    pure (if string_only then
            PyVal.pstr (tle_line_0.line_str ++ tle_line_1.line_str ++ tle_line_2.line_str)
          else
            PyVal.pdict [(.pint 0, tle_line_0.toPyVal), (.pint 1, tle_line_1.toPyVal),
                         (.pint 2, tle_line_2.toPyVal)]))

/-- The function `getStoredTLEByIdx`: the sentinel `None` when the path does not exist; a single integer
index is normalized to a one-element list; otherwise one result per requested
record index, in request order. -/
def getStoredTLEByIdx (tle_path : Option (List String)) (idx_list : ℤ ⊕ List ℤ)
    (string_only : Bool) : Except PyErr (Option (List PyVal)) :=
  match tle_path with
  | none => .ok none
  | some lines =>
    (getStoredTLEByIdxBody lines
        (match idx_list with | .inl i => [i] | .inr l => l) string_only).map some

/-! ### Generic helper lemmas about the embedded monadic plumbing -/

theorem okBind {α β : Type} (a : α) (f : α → Except PyErr β) :
    (Except.ok a : Except PyErr α) >>= f = f a := rfl

theorem errBind {α β : Type} (e : PyErr) (f : α → Except PyErr β) :
    (Except.error e : Except PyErr α) >>= f = .error e := rfl

theorem okMap {α β : Type} (g : α → β) (a : α) :
    (Except.ok a : Except PyErr α).map g = .ok (g a) := rfl

theorem exceptMapSomeCases {α : Type} (b : Except PyErr α) :
    (∃ e, (b.map some : Except PyErr (Option α)) = .error e) ∨
      ∃ v, b.map some = .ok (some v) := by
  cases b with
  | error e => exact Or.inl ⟨e, rfl⟩
  | ok a => exact Or.inr ⟨a, rfl⟩

theorem listMapMOk {α β : Type} (f : α → Except PyErr β) (g : α → β) :
    ∀ l : List α, (∀ a ∈ l, f a = .ok (g a)) → l.mapM f = .ok (l.map g) := by
  intro l
  induction l with
  | nil => intro _; rfl
  | cons a l ih =>
    intro h
    rw [List.mapM_cons, h a (by simp), ih (fun b hb => h b (by simp [hb]))]
    rfl

theorem pyListGet_nat (l : List String) (k : ℕ) (h : k < l.length) :
    pyListGet l (k : ℤ) = .ok (l.getD k "") := by
  have h0 : ¬ ((k : ℤ) < 0) := by omega
  have h1 : (0 : ℤ) ≤ (k : ℤ) ∧ (k : ℤ) < (l.length : ℤ) := by omega
  have h2 : ((k : ℤ)).toNat = k := by omega
  simp only [pyListGet]
  rw [if_neg h0, if_pos h1, h2]

theorem pyListGet_neg2 (l : List String) (h : 2 ≤ l.length) :
    pyListGet l (-2) = .ok (l.getD (l.length - 2) "") := by
  have h0 : ((-2 : ℤ)) < 0 := by omega
  have h1 : (0 : ℤ) ≤ -2 + (l.length : ℤ) ∧ -2 + (l.length : ℤ) < (l.length : ℤ) := by omega
  have h2 : ((-2) + (l.length : ℤ)).toNat = l.length - 2 := by omega
  simp only [pyListGet]
  rw [if_pos h0, if_pos h1, h2]

/-! ### C5: missing-path sentinel behaviour of the three file accessors -/

/-- C5: each of `getStoredEpochs`, `getAllStoredEpochs` and `getStoredTLEByIdx`
returns the sentinel `none` exactly when the path does not exist and never
raises in that case; on an existing path each either propagates an error or
returns a non-`none` result, never `none`. -/
theorem stored_accessors_sentinel :
    getStoredEpochs none = .ok none ∧
    getAllStoredEpochs none = .ok none ∧
    (∀ il so, getStoredTLEByIdx none il so = .ok none) ∧
    (∀ lines, (∃ e, getStoredEpochs (some lines) = .error e) ∨
      ∃ v, getStoredEpochs (some lines) = .ok (some v)) ∧
    (∀ lines, (∃ e, getAllStoredEpochs (some lines) = .error e) ∨
      ∃ v, getAllStoredEpochs (some lines) = .ok (some v)) ∧
    (∀ lines il so, (∃ e, getStoredTLEByIdx (some lines) il so = .error e) ∨
      ∃ v, getStoredTLEByIdx (some lines) il so = .ok (some v)) := by
  refine ⟨rfl, rfl, fun il so => rfl, fun lines => ?_, fun lines => ?_,
    fun lines il so => ?_⟩
  · exact exceptMapSomeCases (getStoredEpochsBody lines)
  · exact exceptMapSomeCases (getAllStoredEpochsBody lines)
  · exact exceptMapSomeCases (getStoredTLEByIdxBody lines _ so)

/-! ### C2: the SGP4 epoch conversion -/

/-- C2: for every datetime, aware or naive, `datetime2sgp4epoch` returns
whole days plus whole-seconds-of-remainder / 86400 of the difference from the
reference instant 1949-12-31T00:00:00 carrying the same timezone awareness:
the shared offset cancels, so the result is the stated function of the
wall-clock difference alone; in particular the reference instant itself maps
to 0 and one day later maps to 1, for naive and aware inputs alike. -/
theorem datetime2sgp4epoch_spec :
    (∀ d : Datetime,
      datetime2sgp4epoch d =
        (((d.micro - dateToMicro 1949 12 31) / usPerDay : ℤ) : ℚ) +
          ((((d.micro - dateToMicro 1949 12 31) % usPerDay) / 1000000 : ℤ) : ℚ) / 86400) ∧
    datetime2sgp4epoch ⟨dateToMicro 1949 12 31, none⟩ = 0 ∧
    datetime2sgp4epoch ⟨dateToMicro 1949 12 31, some 0⟩ = 0 ∧
    datetime2sgp4epoch ⟨dateToMicro 1949 12 31 + usPerDay, none⟩ = 1 ∧
    datetime2sgp4epoch ⟨dateToMicro 1949 12 31 + usPerDay, some 0⟩ = 1 := by
  have key : ∀ d : Datetime,
      datetime2sgp4epoch d =
        (((d.micro - dateToMicro 1949 12 31) / usPerDay : ℤ) : ℚ) +
          ((((d.micro - dateToMicro 1949 12 31) % usPerDay) / 1000000 : ℤ) : ℚ) / 86400 := by
    intro d
    simp only [datetime2sgp4epoch, dtSubMicro]
    have h : (d.micro - d.tz.getD 0) - (dateToMicro 1949 12 31 - d.tz.getD 0) =
        d.micro - dateToMicro 1949 12 31 := by ring
    rw [h]
  refine ⟨key, ?_, ?_, ?_, ?_⟩ <;>
    rw [key] <;> norm_num [usPerDay]

/-! ### C10: sub-second time is ignored by the SGP4 epoch conversion -/

/-- C10: `datetime2sgp4epoch` ignores sub-second time: its value at any
datetime equals its value at the same datetime with the microsecond component
(the wall-clock microseconds modulo one second) replaced by zero, because only
the whole-day and whole-second parts of the difference contribute. -/
theorem datetime2sgp4epoch_ignores_micro (d : Datetime) :
    datetime2sgp4epoch d = datetime2sgp4epoch ⟨d.micro - d.micro % 1000000, d.tz⟩ := by
  simp only [datetime2sgp4epoch, dtSubMicro]
  have href : dateToMicro 1949 12 31 % 1000000 = 0 := by decide
  have e1 : (d.micro - d.tz.getD 0) - (dateToMicro 1949 12 31 - d.tz.getD 0) =
      d.micro - dateToMicro 1949 12 31 := by ring
  have e2 : ((d.micro - d.micro % 1000000) - d.tz.getD 0) -
        (dateToMicro 1949 12 31 - d.tz.getD 0) =
      (d.micro - dateToMicro 1949 12 31) -
        (d.micro - dateToMicro 1949 12 31) % 1000000 := by
    omega
  rw [e1, e2]
  generalize (d.micro - dateToMicro 1949 12 31 : ℤ) = Δ
  have g1 : (Δ - Δ % 1000000) / usPerDay = Δ / usPerDay := by
    simp only [usPerDay]; omega
  have g2 : ((Δ - Δ % 1000000) % usPerDay) / 1000000 = (Δ % usPerDay) / 1000000 := by
    simp only [usPerDay]; omega
  rw [g1, g2]

/-! ### C7 and C8: record retrieval by index -/

theorem getStoredTLEByIdxBody_ok (lines : List String) (so : Bool) (ks : List ℕ)
    (h : ∀ k ∈ ks, 3 * k + 2 < lines.length) :
    getStoredTLEByIdxBody lines (ks.map (fun (k : ℕ) => (k : ℤ))) so =
      .ok (ks.map (fun k =>
        if so then
          PyVal.pstr ((split3LELineIntoFields (lines.getD (3 * k) "")).line_str ++
            (split3LELineIntoFields (lines.getD (3 * k + 1) "")).line_str ++
            (split3LELineIntoFields (lines.getD (3 * k + 2) "")).line_str)
        else
          PyVal.pdict [(.pint 0, (split3LELineIntoFields (lines.getD (3 * k) "")).toPyVal),
            (.pint 1, (split3LELineIntoFields (lines.getD (3 * k + 1) "")).toPyVal),
            (.pint 2, (split3LELineIntoFields (lines.getD (3 * k + 2) "")).toPyVal)])) := by
  induction ks with
  | nil => rfl
  | cons k ks ih =>
    have hk := h k (by simp)
    have htail : ∀ a ∈ ks, 3 * a + 2 < lines.length := fun a ha => h a (by simp [ha])
    have c0 : (k : ℤ) * 3 + 0 = ((3 * k : ℕ) : ℤ) := by push_cast; ring
    have c1 : (k : ℤ) * 3 + 1 = ((3 * k + 1 : ℕ) : ℤ) := by push_cast; ring
    have c2 : (k : ℤ) * 3 + 2 = ((3 * k + 2 : ℕ) : ℤ) := by push_cast; ring
    simp only [getStoredTLEByIdxBody] at ih ⊢
    simp only [List.map_cons, List.mapM_cons]
    rw [c0, c1, c2, pyListGet_nat lines (3 * k) (by omega),
      pyListGet_nat lines (3 * k + 1) (by omega),
      pyListGet_nat lines (3 * k + 2) (by omega)]
    simp only [okBind, ih htail, List.map_cons]
    rfl

/-- C7: on an existing file, `getStoredTLEByIdx` with `string_only = True`
normalizes a single integer index to a one-element list, and returns one
string per requested record index `k` (in request order), equal to the
verbatim concatenation of the `line_str` texts of file lines `3k`, `3k+1`,
`3k+2`, with no added separators; in particular index 0 on a file whose first
three lines are `"L0\n"`, `"L1\n"`, `"L2\n"` yields `["L0\nL1\nL2\n"]`. -/
theorem getStoredTLEByIdx_string_spec :
    (∀ file i so, getStoredTLEByIdx file (.inl i) so = getStoredTLEByIdx file (.inr [i]) so) ∧
    (∀ (lines : List String) (ks : List ℕ),
      (∀ k ∈ ks, 3 * k + 2 < lines.length) →
      getStoredTLEByIdx (some lines) (.inr (ks.map (fun (k : ℕ) => (k : ℤ)))) true =
        .ok (some (ks.map (fun k =>
          PyVal.pstr ((split3LELineIntoFields (lines.getD (3 * k) "")).line_str ++
            (split3LELineIntoFields (lines.getD (3 * k + 1) "")).line_str ++
            (split3LELineIntoFields (lines.getD (3 * k + 2) "")).line_str))))) ∧
    getStoredTLEByIdx (some ["L0\n", "L1\n", "L2\n"]) (.inl 0) true =
      .ok (some [PyVal.pstr "L0\nL1\nL2\n"]) := by
  refine ⟨fun file i so => by cases file <;> rfl, fun lines ks h => ?_, rfl⟩
  simp only [getStoredTLEByIdx]
  rw [getStoredTLEByIdxBody_ok lines true ks h, okMap]
  simp

/-- C7 witness: two records requested in the order `[1, 0]` from a six-line
file; the hypothesis of the general statement is discharged by computation. -/
theorem getStoredTLEByIdx_string_spec_witness :
    getStoredTLEByIdx (some ["A\n", "B\n", "C\n", "D\n", "E\n", "F\n"])
        (.inr (([1, 0] : List ℕ).map (fun (k : ℕ) => (k : ℤ)))) true =
      .ok (some (([1, 0] : List ℕ).map (fun k =>
        PyVal.pstr
          ((split3LELineIntoFields ((["A\n", "B\n", "C\n", "D\n", "E\n", "F\n"]).getD (3 * k) "")).line_str ++
            (split3LELineIntoFields ((["A\n", "B\n", "C\n", "D\n", "E\n", "F\n"]).getD (3 * k + 1) "")).line_str ++
            (split3LELineIntoFields ((["A\n", "B\n", "C\n", "D\n", "E\n", "F\n"]).getD (3 * k + 2) "")).line_str)))) :=
  getStoredTLEByIdx_string_spec.2.1 ["A\n", "B\n", "C\n", "D\n", "E\n", "F\n"] [1, 0] (by decide)

/-- C8 counterexample: with `string_only = False` the per-record dict maps the
keys 0, 1, 2 to the full splitter structures, not to the bare ordered field
sequences the claim predicts. -/
theorem getStoredTLEByIdx_fields_counterexample :
    getStoredTLEByIdx (some ["N a\n", "1 b\n", "2 c\n"]) (.inl 0) false ≠
      .ok (some [PyVal.pdict [(.pint 0, .plist [.pstr "N", .pstr "a"]),
        (.pint 1, .plist [.pstr "1", .pstr "b"]),
        (.pint 2, .plist [.pstr "2", .pstr "c"])]]) := by
  intro h
  rw [show getStoredTLEByIdx (some ["N a\n", "1 b\n", "2 c\n"]) (.inl 0) false =
      .ok (some [PyVal.pdict [(.pint 0, (split3LELineIntoFields "N a\n").toPyVal),
        (.pint 1, (split3LELineIntoFields "1 b\n").toPyVal),
        (.pint 2, (split3LELineIntoFields "2 c\n").toPyVal)]]) from rfl] at h
  simp [SplitLine.toPyVal, split3LELineIntoFields] at h

/-- C8 (amended): on an existing file, `getStoredTLEByIdx` with
`string_only = False` returns, per requested index and in request order, a
mapping from keys 0, 1, 2 to the splitter's parse structures of file lines
`3k`, `3k+1`, `3k+2` respectively — each structure exposing that line's
ordered field sequence under `fields` together with its raw text under
`line_str` — rather than to the bare field sequences. -/
theorem getStoredTLEByIdx_dict_spec :
    ∀ (lines : List String) (ks : List ℕ),
      (∀ k ∈ ks, 3 * k + 2 < lines.length) →
      getStoredTLEByIdx (some lines) (.inr (ks.map (fun (k : ℕ) => (k : ℤ)))) false =
        .ok (some (ks.map (fun k =>
          PyVal.pdict [(.pint 0, (split3LELineIntoFields (lines.getD (3 * k) "")).toPyVal),
            (.pint 1, (split3LELineIntoFields (lines.getD (3 * k + 1) "")).toPyVal),
            (.pint 2, (split3LELineIntoFields (lines.getD (3 * k + 2) "")).toPyVal)]))) := by
  intro lines ks h
  simp only [getStoredTLEByIdx]
  rw [getStoredTLEByIdxBody_ok lines false ks h, okMap]
  simp

/-- C8 witness: record 0 of a three-line file, non-string form. -/
theorem getStoredTLEByIdx_dict_spec_witness :
    getStoredTLEByIdx (some ["N a\n", "1 b\n", "2 c\n"])
        (.inr (([0] : List ℕ).map (fun (k : ℕ) => (k : ℤ)))) false =
      .ok (some (([0] : List ℕ).map (fun k =>
        PyVal.pdict
          [(.pint 0, (split3LELineIntoFields ((["N a\n", "1 b\n", "2 c\n"]).getD (3 * k) "")).toPyVal),
            (.pint 1, (split3LELineIntoFields ((["N a\n", "1 b\n", "2 c\n"]).getD (3 * k + 1) "")).toPyVal),
            (.pint 2, (split3LELineIntoFields ((["N a\n", "1 b\n", "2 c\n"]).getD (3 * k + 2) "")).toPyVal)]))) :=
  getStoredTLEByIdx_dict_spec ["N a\n", "1 b\n", "2 c\n"] [0] (by decide)

/-! ### C6: epoch range of a stored TLE file -/

/-- C6: on an existing well-formed file, `getStoredEpochs` returns the pair
(epoch from field position 3 of the split of file line index 1, epoch from
field position 3 of the split of the second-to-last file line), in file order:
the result is exactly the two converted epochs with no sorting or comparison
applied, whatever their chronological order. -/
theorem getStoredEpochs_spec :
    ∀ (lines : List String) (l1 lm2 e1 e2 : String) (d1 d2 : Datetime),
      pyListGet lines 1 = .ok l1 →
      pyListGet lines (-2) = .ok lm2 →
      pyListGet (split3LELineIntoFields l1).fields 3 = .ok e1 →
      epoch2datetime e1 = .ok d1 →
      pyListGet (split3LELineIntoFields lm2).fields 3 = .ok e2 →
      epoch2datetime e2 = .ok d2 →
      getStoredEpochs (some lines) = .ok (some (d1, d2)) := by
  intro lines l1 lm2 e1 e2 d1 d2 h1 h2 h3 h4 h5 h6
  simp only [getStoredEpochs, getStoredEpochsBody, h1, h2, h3, h4, h5, h6, okBind]
  rfl

/-- C6 witness: a two-record file whose first stored epoch (2025 day 10) is
chronologically later than its second (2025 day 5); the pair is nevertheless
returned in file order. -/
theorem getStoredEpochs_spec_witness :
    getStoredEpochs (some ["S A\n", "1 a b 25010.00000000 x\n", "2 z\n", "S B\n",
        "1 a b 25005.00000000 x\n", "2 z\n"]) =
      .ok (some (⟨739260 * 86400000000, some 0⟩, ⟨739255 * 86400000000, some 0⟩)) :=
  getStoredEpochs_spec
    ["S A\n", "1 a b 25010.00000000 x\n", "2 z\n", "S B\n", "1 a b 25005.00000000 x\n", "2 z\n"]
    "1 a b 25010.00000000 x\n" "1 a b 25005.00000000 x\n"
    "25010.00000000" "25005.00000000"
    ⟨739260 * 86400000000, some 0⟩ ⟨739255 * 86400000000, some 0⟩
    rfl rfl rfl rfl rfl rfl

/-! ### C4: nearest-timestamp index search -/

theorem minListQ_le : ∀ (l : List ℚ) (k : ℕ), k < l.length → minListQ l ≤ l.getD k 0
  | [], _, h => absurd h (by simp)
  | [x], 0, _ => le_refl x
  | [_], k + 1, h => absurd h (by simp)
  | _ :: _ :: _, 0, _ => min_le_left _ _
  | _ :: y :: ys, k + 1, h =>
      le_trans (min_le_right _ _) (minListQ_le (y :: ys) k (by simpa using h))

theorem argminFirst_lt_length : ∀ (l : List ℚ), l ≠ [] → argminFirst l < l.length
  | [], h => absurd rfl h
  | [_], _ => Nat.zero_lt_one
  | x :: y :: ys, _ => by
      show (if x ≤ minListQ (y :: ys) then 0 else argminFirst (y :: ys) + 1) <
        (x :: y :: ys).length
      split
      · simp
      · have := argminFirst_lt_length (y :: ys) (by simp)
        simp only [List.length_cons] at this ⊢
        omega

theorem argminFirst_getD : ∀ (l : List ℚ), l ≠ [] → l.getD (argminFirst l) 0 = minListQ l
  | [], h => absurd rfl h
  | [_], _ => rfl
  | x :: y :: ys, _ => by
      show (x :: y :: ys).getD
          (if x ≤ minListQ (y :: ys) then 0 else argminFirst (y :: ys) + 1) 0 =
        min x (minListQ (y :: ys))
      split
      · rename_i hx
        exact (min_eq_left hx).symm
      · rename_i hx
        have h2 : (x :: y :: ys).getD (argminFirst (y :: ys) + 1) 0 = minListQ (y :: ys) :=
          argminFirst_getD (y :: ys) (by simp)
        rw [h2]
        exact (min_eq_right (le_of_lt (lt_of_not_le hx))).symm

theorem argminFirst_strict : ∀ (l : List ℚ) (k : ℕ), k < argminFirst l →
    l.getD (argminFirst l) 0 < l.getD k 0
  | [], k, h => absurd h (by simp [argminFirst])
  | [_], k, h => absurd h (by simp [argminFirst])
  | x :: y :: ys, k, h => by
      have hsplit : argminFirst (x :: y :: ys) =
          if x ≤ minListQ (y :: ys) then 0 else argminFirst (y :: ys) + 1 := rfl
      by_cases hx : x ≤ minListQ (y :: ys)
      · rw [hsplit, if_pos hx] at h
        exact absurd h (Nat.not_lt_zero k)
      · rw [hsplit, if_neg hx] at h ⊢
        have hval : (x :: y :: ys).getD (argminFirst (y :: ys) + 1) 0 = minListQ (y :: ys) :=
          argminFirst_getD (y :: ys) (by simp)
        rw [hval]
        cases k with
        | zero => exact lt_of_not_le hx
        | succ k =>
          have hk : k < argminFirst (y :: ys) := by omega
          have hs : (y :: ys).getD (argminFirst (y :: ys)) 0 < (y :: ys).getD k 0 :=
            argminFirst_strict (y :: ys) k hk
          rw [argminFirst_getD (y :: ys) (by simp)] at hs
          exact hs

/-- C4: with a non-empty reference array, `findClosestDatetimeIndices` returns
one index per query (in order); each returned index is a valid reference index
whose timestamp minimizes the absolute difference to the query, and every
smaller reference index is strictly worse, so ties resolve to the lowest
index. -/
theorem findClosestDatetimeIndices_spec (test_arr source_arr : List ℚ)
    (hsrc : source_arr ≠ []) :
    ∃ r, findClosestDatetimeIndices test_arr source_arr = .ok r ∧
      r.length = test_arr.length ∧
      ∀ i, i < test_arr.length →
        r.getD i 0 < source_arr.length ∧
        (∀ k, k < source_arr.length →
          |source_arr.getD (r.getD i 0) 0 - test_arr.getD i 0| ≤
            |source_arr.getD k 0 - test_arr.getD i 0|) ∧
        (∀ k, k < r.getD i 0 →
          |source_arr.getD (r.getD i 0) 0 - test_arr.getD i 0| <
            |source_arr.getD k 0 - test_arr.getD i 0|) := by
  have hempty : source_arr.isEmpty = false := by
    cases source_arr with
    | nil => exact absurd rfl hsrc
    | cons a l => rfl
  refine ⟨test_arr.map (fun t => argminFirst (source_arr.map (fun x => |x - t|))), ?_, by simp, ?_⟩
  · apply listMapMOk
    intro t _
    simp only [npArgminAbs, hempty, Bool.false_eq_true, if_false]
  · intro i hi
    have hne : ∀ t : ℚ, source_arr.map (fun x => |x - t|) ≠ [] := by
      intro t hmap
      exact hsrc (by simpa using hmap)
    have hr : (test_arr.map (fun t => argminFirst (source_arr.map (fun x => |x - t|)))).getD i 0 =
        argminFirst (source_arr.map (fun x => |x - test_arr.getD i 0|)) := by
      rw [List.getD_eq_getElem _ _ (by simpa using hi), List.getElem_map,
        List.getD_eq_getElem _ _ hi]
    rw [hr]
    set t := test_arr.getD i 0 with ht
    set dl := source_arr.map (fun x => |x - t|) with hdl
    have hdlen : dl.length = source_arr.length := by simp [hdl]
    have hconv : ∀ j, j < source_arr.length → dl.getD j 0 = |source_arr.getD j 0 - t| := by
      intro j hj
      rw [hdl, List.getD_eq_getElem _ _ (by simpa using hj), List.getElem_map,
        List.getD_eq_getElem _ _ hj]
    have h1 : argminFirst dl < source_arr.length := by
      have := argminFirst_lt_length dl (hne t)
      omega
    refine ⟨h1, ?_, ?_⟩
    · intro k hk
      have hv := argminFirst_getD dl (hne t)
      have hle := minListQ_le dl k (by omega)
      rw [← hconv _ h1, ← hconv _ hk, hv]
      exact hle
    · intro k hk
      have hklen : k < source_arr.length := by omega
      have hs := argminFirst_strict dl k hk
      rw [← hconv _ h1, ← hconv _ hklen]
      exact hs

/-- C4 witness: the query 2 against the reference `[0, 1, 3]`; indices 1 and 2
tie at distance 1 and the properties force the answer onto index 1. -/
theorem findClosestDatetimeIndices_spec_witness :
    ∃ r, findClosestDatetimeIndices [2] [0, 1, 3] = .ok r ∧
      r.length = ([2] : List ℚ).length ∧
      ∀ i, i < ([2] : List ℚ).length →
        r.getD i 0 < ([0, 1, 3] : List ℚ).length ∧
        (∀ k, k < ([0, 1, 3] : List ℚ).length →
          |([0, 1, 3] : List ℚ).getD (r.getD i 0) 0 - ([2] : List ℚ).getD i 0| ≤
            |([0, 1, 3] : List ℚ).getD k 0 - ([2] : List ℚ).getD i 0|) ∧
        (∀ k, k < r.getD i 0 →
          |([0, 1, 3] : List ℚ).getD (r.getD i 0) 0 - ([2] : List ℚ).getD i 0| <
            |([0, 1, 3] : List ℚ).getD k 0 - ([2] : List ℚ).getD i 0|) :=
  findClosestDatetimeIndices_spec [2] [0, 1, 3] (by simp)

/-! ### Parser bounds: a year slice of at most two characters parses below 100 -/

theorem dropWhileLenLe (p : Char → Bool) : ∀ cs : List Char, (cs.dropWhile p).length ≤ cs.length := by
  intro cs
  induction cs with
  | nil => simp
  | cons c cs ih =>
    simp only [List.dropWhile]
    split
    · exact le_trans ih (by simp)
    · simp

theorem pyStripChars_len (cs : List Char) : (pyStripChars cs).length ≤ cs.length := by
  unfold pyStripChars
  calc ((cs.dropWhile isSpaceChar).reverse.dropWhile isSpaceChar).reverse.length
      = ((cs.dropWhile isSpaceChar).reverse.dropWhile isSpaceChar).length := by simp
    _ ≤ (cs.dropWhile isSpaceChar).reverse.length := dropWhileLenLe _ _
    _ = (cs.dropWhile isSpaceChar).length := by simp
    _ ≤ cs.length := dropWhileLenLe _ _

theorem signSplit_snd_len (cs : List Char) : (signSplit cs).2.length ≤ cs.length := by
  cases cs with
  | nil => simp [signSplit]
  | cons c cs =>
    simp only [signSplit]
    split
    · simp
    · split
      · simp
      · simp

theorem digitsFoldBound : ∀ (ds : List Char) (a : ℕ), ds.all isDigitChar = true →
    ds.foldl (fun a c => 10 * a + digitVal c) a < (a + 1) * 10 ^ ds.length := by
  intro ds
  induction ds with
  | nil => intro a _; simp
  | cons c ds ih =>
    intro a h
    simp only [List.all_cons, Bool.and_eq_true] at h
    have hc : digitVal c ≤ 9 := by
      have h1 := h.1
      simp only [isDigitChar, Bool.and_eq_true, decide_eq_true_eq] at h1
      simp only [digitVal]
      omega
    have step := ih (10 * a + digitVal c) h.2
    calc (c :: ds).foldl (fun a c => 10 * a + digitVal c) a
        = ds.foldl (fun a c => 10 * a + digitVal c) (10 * a + digitVal c) := rfl
      _ < (10 * a + digitVal c + 1) * 10 ^ ds.length := step
      _ ≤ ((a + 1) * 10) * 10 ^ ds.length := Nat.mul_le_mul_right _ (by omega)
      _ = (a + 1) * 10 ^ (c :: ds).length := by
          simp only [List.length_cons, pow_succ]
          ring

theorem digitsToNat_lt (ds : List Char) (h : ds.all isDigitChar = true) :
    digitsToNat ds < 10 ^ ds.length := by
  have := digitsFoldBound ds 0 h
  simpa [digitsToNat] using this

theorem pyIntOfDigits_ok (ds : List Char) (v : ℤ) (h : pyIntOfDigits ds = .ok v) :
    0 ≤ v ∧ v < 10 ^ ds.length := by
  unfold pyIntOfDigits at h
  split at h
  · rename_i hcond
    have hv : (digitsToNat ds : ℤ) = v := by
      injection h
    have hlt := digitsToNat_lt ds hcond.2
    constructor
    · omega
    · rw [← hv]
      exact_mod_cast hlt
  · exact absurd h (by simp)

theorem pyInt_yearSlice_bound (s : String) (y : ℤ) (h : pyInt (yearSlice s) = .ok y) :
    -99 ≤ y ∧ y ≤ 99 := by
  have hlen2 : (yearSlice s).toList.length ≤ 2 := by
    show (s.toList.take 2).length ≤ 2
    simp [List.length_take]
  unfold pyInt at h
  obtain ⟨neg, ds, hsig⟩ : ∃ neg ds, signSplit (pyStripChars (yearSlice s).toList) = (neg, ds) :=
    ⟨_, _, rfl⟩
  rw [hsig] at h
  simp only [] at h
  have hds : ds.length ≤ 2 := by
    have h1 : (pyStripChars (yearSlice s).toList).length ≤ 2 :=
      le_trans (pyStripChars_len _) hlen2
    have h2 := signSplit_snd_len (pyStripChars (yearSlice s).toList)
    rw [hsig] at h2
    simp only [] at h2
    omega
  cases hv : pyIntOfDigits ds with
  | error e =>
    rw [hv] at h
    exact absurd h (by simp [Except.map])
  | ok v =>
    rw [hv, okMap] at h
    obtain ⟨hv0, hvlt⟩ := pyIntOfDigits_ok ds v hv
    have hv99 : v ≤ 99 := by
      obtain h0 | h1 | h2 : ds.length = 0 ∨ ds.length = 1 ∨ ds.length = 2 := by omega
      · rw [h0] at hvlt; norm_num at hvlt; omega
      · rw [h1] at hvlt; norm_num at hvlt; omega
      · rw [h2] at hvlt; norm_num at hvlt; omega
    have hy : (if neg then -v else v) = y := by injection h
    cases neg with
    | false => simp only [if_false, Bool.false_eq_true] at hy; omega
    | true => simp only [if_true] at hy; omega

theorem mkJan1UTC_pivot_ok (y : ℤ) (h1 : -99 ≤ y) (h2 : y ≤ 99) :
    mkJan1UTC (pivotYear y) = .ok ⟨dateToMicro (pivotYear y) 1 1, some 0⟩ := by
  have hp : 1 ≤ pivotYear y ∧ pivotYear y ≤ 9999 := by
    unfold pivotYear
    split <;> omega
  unfold mkJan1UTC
  rw [if_pos hp]

theorem epoch2datetime_ok_of (s : String) (y : ℤ) (f : PyFloat) (t : ℤ)
    (hy : pyInt (yearSlice s) = .ok y)
    (hf : pyFloat (daySlice s) = .ok f)
    (ht : tdOfDays f = .ok t)
    (hmid : inDtRange (dateToMicro (pivotYear y) 1 1 + t))
    (hfin : inDtRange (dateToMicro (pivotYear y) 1 1 + t - usPerDay)) :
    epoch2datetime s = .ok ⟨dateToMicro (pivotYear y) 1 1 + t - usPerDay, some 0⟩ := by
  obtain ⟨hb1, hb2⟩ := pyInt_yearSlice_bound s y hy
  unfold epoch2datetime
  rw [hy, okBind, hf, okBind, mkJan1UTC_pivot_ok y hb1 hb2, okBind, ht, okBind]
  simp only [dtAddMicro]
  rw [if_pos hmid, okBind]
  rw [sub_eq_add_neg] at hfin
  rw [if_pos hfin, sub_eq_add_neg]

/-! ### C1: the epoch-string to datetime conversion -/

/-- C1 (amended): for every epoch string of length at least 3 whose first two
characters parse as an integer `y` and whose remaining characters parse as a
float `f`, and for which the day offset fits in a timedelta and both the
intermediate sum and the final instant lie in the representable datetime
range, `epoch2datetime` returns
`datetime(pivotYear y, 1, 1, UTC) + timedelta(days=f) - timedelta(days=1)`;
in particular "49001.0" yields 2049-01-01, "50001.0" yields 1950-01-01
(century pivot), and "21001.00000000" yields exactly 2021-01-01T00:00:00 UTC. -/
theorem epoch2datetime_spec :
    (∀ (s : String) (y : ℤ) (f : PyFloat) (t : ℤ),
      3 ≤ s.length →
      pyInt (yearSlice s) = .ok y →
      pyFloat (daySlice s) = .ok f →
      tdOfDays f = .ok t →
      inDtRange (dateToMicro (pivotYear y) 1 1 + t) →
      inDtRange (dateToMicro (pivotYear y) 1 1 + t - usPerDay) →
      epoch2datetime s = .ok ⟨dateToMicro (pivotYear y) 1 1 + t - usPerDay, some 0⟩) ∧
    epoch2datetime "49001.0" = .ok ⟨dateToMicro 2049 1 1, some 0⟩ ∧
    epoch2datetime "50001.0" = .ok ⟨dateToMicro 1950 1 1, some 0⟩ ∧
    epoch2datetime "21001.00000000" = .ok ⟨dateToMicro 2021 1 1, some 0⟩ :=
  ⟨fun s y f t _ hy hf ht hmid hfin => epoch2datetime_ok_of s y f t hy hf ht hmid hfin,
    rfl, rfl, rfl⟩

/-- C1 witness: "21002.5" parses to year 21 and fractional day 2.5, and all
range conditions hold, so the general statement applies and yields
2021-01-02T12:00:00 UTC. -/
theorem epoch2datetime_spec_witness :
    epoch2datetime "21002.5" =
      .ok ⟨dateToMicro (pivotYear 21) 1 1 + 216000000000 - usPerDay, some 0⟩ :=
  epoch2datetime_spec.1 "21002.5" 21 ⟨25, -1⟩ 216000000000
    (by decide) rfl rfl rfl (by decide) (by decide)

/-- C1 counterexample: "219999999" has length at least 3, its first two
characters parse as the integer 21 and its remainder parses as the float
9999999.0, yet `epoch2datetime` raises `OverflowError` (the instant is beyond
year 9999) instead of returning a datetime, so the claim's unconditional
"returns" clause fails. -/
theorem epoch2datetime_spec_counterexample :
    3 ≤ ("219999999" : String).length ∧
    pyInt (yearSlice "219999999") = .ok 21 ∧
    pyFloat (daySlice "219999999") = .ok ⟨9999999, 0⟩ ∧
    epoch2datetime "219999999" = .error .overflowError :=
  ⟨by decide, rfl, rfl, rfl⟩

/-! ### C9: exactly when the epoch conversion raises -/

/-- C9 (amended): `epoch2datetime` returns a datetime exactly when the input
is at least 3 characters long, its first two characters parse as an integer,
its remainder parses as a float, and the timedelta/datetime range checks all
pass; in every other case (too short, unparseable segments, or out-of-range
instants) it raises. -/
theorem epoch2datetime_ok_iff (s : String) :
    (∃ d, epoch2datetime s = .ok d) ↔
      (3 ≤ s.length ∧ ∃ y f t, pyInt (yearSlice s) = .ok y ∧ pyFloat (daySlice s) = .ok f ∧
        tdOfDays f = .ok t ∧ inDtRange (dateToMicro (pivotYear y) 1 1 + t) ∧
        inDtRange (dateToMicro (pivotYear y) 1 1 + t - usPerDay)) := by
  constructor
  · rintro ⟨d, hd⟩
    cases hy : pyInt (yearSlice s) with
    | error e =>
      unfold epoch2datetime at hd
      rw [hy, errBind] at hd
      simp at hd
    | ok y =>
      cases hf : pyFloat (daySlice s) with
      | error e =>
        unfold epoch2datetime at hd
        rw [hy, okBind, hf, errBind] at hd
        simp at hd
      | ok f =>
        obtain ⟨hb1, hb2⟩ := pyInt_yearSlice_bound s y hy
        cases ht : tdOfDays f with
        | error e =>
          unfold epoch2datetime at hd
          rw [hy, okBind, hf, okBind, mkJan1UTC_pivot_ok y hb1 hb2, okBind, ht, errBind] at hd
          simp at hd
        | ok t =>
          by_cases hmid : inDtRange (dateToMicro (pivotYear y) 1 1 + t)
          · by_cases hfin : inDtRange (dateToMicro (pivotYear y) 1 1 + t - usPerDay)
            · refine ⟨?_, y, f, t, rfl, rfl, ht, hmid, hfin⟩
              by_contra hlen
              have hdrop : s.toList.drop 2 = [] := by
                have hsl : s.length = s.toList.length := rfl
                exact List.drop_eq_nil_of_le (by omega)
              unfold daySlice at hf
              rw [hdrop] at hf
              rw [show pyFloat (String.mk []) = .error .valueError from rfl] at hf
              simp at hf
            · unfold epoch2datetime at hd
              rw [hy, okBind, hf, okBind, mkJan1UTC_pivot_ok y hb1 hb2, okBind, ht, okBind] at hd
              simp only [dtAddMicro] at hd
              rw [if_pos hmid, okBind] at hd
              rw [sub_eq_add_neg] at hfin
              rw [if_neg hfin] at hd
              simp at hd
          · unfold epoch2datetime at hd
            rw [hy, okBind, hf, okBind, mkJan1UTC_pivot_ok y hb1 hb2, okBind, ht, okBind] at hd
            simp only [dtAddMicro] at hd
            rw [if_neg hmid, errBind] at hd
            simp at hd
  · rintro ⟨hlen, y, f, t, hy, hf, ht, hmid, hfin⟩
    exact ⟨_, epoch2datetime_ok_of s y f t hy hf ht hmid hfin⟩

/-- C9 counterexample: "2199999999" is well-formed by the claim's criteria
(length at least 3, integer year slice, float day slice), yet the conversion
raises `OverflowError`, contradicting the claim that every such input returns
a datetime without raising. -/
theorem epoch2datetime_ok_iff_counterexample :
    3 ≤ ("2199999999" : String).length ∧
    pyInt (yearSlice "2199999999") = .ok 21 ∧
    pyFloat (daySlice "2199999999") = .ok ⟨99999999, 0⟩ ∧
    epoch2datetime "2199999999" = .error .overflowError :=
  ⟨by decide, rfl, rfl, rfl⟩
